import Mathlib

/-!
Verification of the djindjo templating engine (src/djindjo.py) against its
natural-language specification.

The Python source is shallowly embedded: Python values are modelled by the
inductive `Value`; the `Context` class by a list of association-list layers
(head = most recently pushed layer); the lexer, the recursive-descent block
stack of `Parser.parse`, and the per-node `render` methods are translated
into executable Lean functions.  Modelling notes:

* Python `None` is the constructor `Value.vnone`.  `Context.lookup` uses
  `None` both as its "absent" sentinel and as an ordinary storable value,
  exactly as the source does, so our `Context.lookup` returns a `Value`
  (with `vnone` playing both roles), while the individual access steps
  (`__getitem__`, `getattr`) are modelled with `Option` to reflect the
  raised-and-caught exceptions.
* Attribute access (`getattr`) is modelled per shape: an attribute table
  for `Value.vobj` (a user object exposing named fields), and absent for
  the plain data shapes, whose Python attributes are builtin machinery
  (e.g. `int.real`, `str.upper`, dunders) that no claim exercises.  On the
  `Context` object itself the fallback `getattr(self, token)` is modelled
  exactly for the class's own attributes: `stack` resolves to the layer
  list (so a template can print the scope stack), and the six methods to
  opaque bound-method values; attributes inherited from `object` are not
  modelled.
* Character classes: Python's `\w`, `str.strip()` and `str.split()` are
  Unicode-aware; we model the ASCII behaviour (`[A-Za-z0-9_]`, ASCII
  whitespace), which coincides with Python on all ASCII inputs used here.
-/

namespace Djindjo

/-- Python values as they occur in template data: `None`, booleans, ints,
strings, lists, dicts (insertion-ordered association lists) and user objects
exposing named attributes.  `vmethod` is a bound method of the `Context`
object, reachable when a first path segment names one of its methods
(`push`, `pop`, ...); it is opaque apart from its name. -/
inductive Value where
  | vnone : Value
  | vbool : Bool → Value
  | vint : Int → Value
  | vstr : String → Value
  | vlist : List Value → Value
  | vdict : List (String × Value) → Value
  | vobj : List (String × Value) → Value
  | vmethod : String → Value

/-- Python's `repr` of a string: the string between single quotes (escape
sequences inside the string are not modelled). -/
def pyReprStr (s : String) : String :=
  "\x27" ++ s ++ "\x27"

mutual

/-- Python's `repr`, modelled for the value shapes above.  Lists and dicts
recurse with `", "` separators; the default `repr` of a user object or of
a bound method contains its memory address, which has no counterpart in
the model, so both are rendered abstractly. -/
def pyRepr : Value → String
  | Value.vnone => "None"
  | Value.vbool true => "True"
  | Value.vbool false => "False"
  | Value.vint n => toString n
  | Value.vstr s => pyReprStr s
  | Value.vlist xs => "[" ++ pyReprSeq xs ++ "]"
  | Value.vdict m => "\x7b" ++ pyReprItems m ++ "\x7d"
  | Value.vobj _ => "<object>"
  | Value.vmethod _ => "<bound method>"

def pyReprSeq : List Value → String
  | [] => ""
  | x :: rest => pyRepr x ++ (if rest.isEmpty then "" else ", ") ++ pyReprSeq rest

def pyReprPair : String × Value → String
  | (k, v) => pyReprStr k ++ ": " ++ pyRepr v

def pyReprItems : List (String × Value) → String
  | [] => ""
  | kv :: rest => pyReprPair kv ++ (if rest.isEmpty then "" else ", ") ++ pyReprItems rest

end

/-- Python's `str`: the string itself for strings, `repr` otherwise (this is
exactly `str`'s behaviour on `None`, booleans, ints, lists and dicts). -/
def pyStr : Value → String
  | Value.vstr s => s
  | v => pyRepr v

/-- Python truthiness (`if value:`): `None` and `False` are falsy, zero is
falsy, empty strings/lists/dicts are falsy, plain objects are truthy. -/
def Value.truthy : Value → Bool
  | Value.vnone => false
  | Value.vbool b => b
  | Value.vint n => n != 0
  | Value.vstr s => s != ""
  | Value.vlist xs => !xs.isEmpty
  | Value.vdict m => !m.isEmpty
  | Value.vobj _ => true
  | Value.vmethod _ => true

/-- Iteration capability (`hasattr(collection, '__iter__')` followed by
`for item in collection`): lists yield their elements, strings yield their
characters as one-character strings, dicts yield their keys; `None`,
booleans, ints and plain objects are not iterable. -/
def Value.iterate : Value → Option (List Value)
  | Value.vlist xs => some xs
  | Value.vstr s => some (s.toList.map (fun c => Value.vstr (String.mk [c])))
  | Value.vdict m => some (m.map (fun kv => Value.vstr kv.1))
  | _ => none

/-- ASCII whitespace, modelling the characters stripped by `str.strip()`
and split on by `str.split()`. -/
def isPySpace (c : Char) : Bool :=
  c = ' ' || c = '\t' || c = '\n' || c = '\r' || c = '\x0b' || c = '\x0c'

/-- Word characters of the regex class `\w` (ASCII fragment). -/
def isWordChar (c : Char) : Bool :=
  c.isAlphanum || c = '_'

/-- Characters of the regex class `[\w.]`. -/
def isWordDot (c : Char) : Bool :=
  isWordChar c || c = '.'

/-- Python `str.strip()` on a character list: drop whitespace at both ends. -/
def stripChars (l : List Char) : List Char :=
  ((l.dropWhile isPySpace).reverse.dropWhile isPySpace).reverse

/-- Python `str.strip()`. -/
def pyStrip (s : String) : String :=
  String.mk (stripChars s.toList)

/-- Python `str.split('.')` on a character list: splits at every dot and
keeps empty chunks, so `""` gives `[""]` and `"a..b"` gives
`["a", "", "b"]`. -/
def splitOnDot : List Char → List (List Char)
  | [] => [[]]
  | c :: rest =>
      if c = '.' then [] :: splitOnDot rest
      else
        match splitOnDot rest with
        | [] => [[c]]
        | chunk :: chunks => (c :: chunk) :: chunks

/-- Python `keystring.split('.')` as used by `Context.lookup`. -/
def splitDots (s : String) : List String :=
  (splitOnDot s.toList).map String.mk

/-- Python `text.split()[0]` (`Token.keyword`): the first
whitespace-separated word of `text`, or `none` when there is no word at all
— in which case the Python property raises an uncaught `IndexError`. -/
def keywordOf (s : String) : Option String :=
  match s.toList.dropWhile isPySpace with
  | [] => none
  | c :: cs => some (String.mk ((c :: cs).takeWhile (fun x => !isPySpace x)))

/-- One scope layer of the context: a Python dict used as a mapping from
names to values (insertion-ordered association list with unique keys). -/
abbrev Layer := List (String × Value)

/-- Dict read access `d[key]` / `key in d`. -/
def Layer.getKey : Layer → String → Option Value
  | [], _ => none
  | (k2, v2) :: rest, k => if k2 = k then some v2 else Layer.getKey rest k

/-- Dict write access `d[key] = value`: overwrite in place if the key is
present, append otherwise. -/
def Layer.setKey : Layer → String → Value → Layer
  | [], k, v => [(k, v)]
  | (k2, v2) :: rest, k, v =>
      if k2 = k then (k, v) :: rest else (k2, v2) :: Layer.setKey rest k v

/-- The `Context` scope stack.  Python keeps a list with the newest layer at
the end and scans it with `reversed`; we keep the newest layer at the head,
so a scan is head-first. -/
abbrev Ctx := List Layer

namespace Context

/-- `Context.__getitem__`: scan the layers from the most recently pushed to
the oldest and return the first binding found; `none` models the raised
`KeyError`. -/
def getItem : Ctx → String → Option Value
  | [], _ => none
  | layer :: rest, k =>
      match Layer.getKey layer k with
      | some v => some v
      | none => getItem rest k

/-- `Context.__setitem__`: bind `k` in the most recently pushed layer.  The
empty-stack case is unreachable: the stack always holds at least the root
data layer. -/
def setItem (st : Ctx) (k : String) (v : Value) : Ctx :=
  match st with
  | [] => []
  | layer :: rest => Layer.setKey layer k v :: rest

/-- `Context.push`: push a fresh empty scope layer. -/
def push (st : Ctx) : Ctx := [] :: st

/-- `Context.pop`: discard the most recently pushed layer. -/
def pop (st : Ctx) : Ctx := st.tail

end Context

/-- Mapping access `result[token]` on a plain value, `none` modelling the
raised-and-caught exception: only dicts support string keys (indexing a
list or string with a string raises `TypeError`, all other shapes raise as
well). -/
def Value.getItem : Value → String → Option Value
  | Value.vdict m, k => Layer.getKey m k
  | _, _ => none

/-- Attribute access `getattr(result, token)` on a plain value: only
`vobj` carries user-visible named attributes.  On the other shapes Python
would expose builtin attributes (`(42).real`, `str.upper`, inherited
dunders); those are not modelled and count as absent — no claim evaluates
attribute access there. -/
def Value.getAttr : Value → String → Option Value
  | Value.vobj attrs, k => Layer.getKey attrs k
  | _, _ => none

/-- One iteration of the loop body of `Context.lookup` for a non-first
segment: `try: result = result[token] / except: try: result =
getattr(result, token)`. -/
def resolveSeg (v : Value) (k : String) : Option Value :=
  match Value.getItem v k with
  | some r => some r
  | none => Value.getAttr v k

/-- The remaining iterations of `Context.lookup`'s loop after the first
segment: on a failed segment the Python code sets `result = None` and
breaks; here that is the `vnone` result. -/
def lookupTail : Value → List String → Value
  | v, [] => v
  | v, k :: rest =>
      match resolveSeg v k with
      | some r => lookupTail r rest
      | none => Value.vnone

/-- Attribute access `getattr(self, token)` on the `Context` object, the
fallback taken when the first segment is in no scope layer: the one data
attribute `stack` — the layer list itself, oldest layer first as Python
stores it, each layer a dict — and the class's six methods as opaque
bound-method values.  Attributes inherited from `object` (`__class__`,
`__repr__`, ...) are not modelled and count as absent; no claim exercises
them. -/
def Context.getAttr (st : Ctx) (k : String) : Option Value :=
  if k = "stack" then some (Value.vlist (st.reverse.map Value.vdict))
  else if k = "push" || k = "pop" || k = "lookup"
      || k = "__init__" || k = "__getitem__" || k = "__setitem__" then
    some (Value.vmethod k)
  else none

/-- `Context.lookup`: split the key string on `.`; the first segment is
resolved against the context itself — `try: result = result[token]`, i.e.
`__getitem__` scanning the layer stack, and on its `KeyError` the
`getattr(result, token)` fallback against the `Context` object's own
attributes — and every later segment against the value produced so far.
`splitDots` never returns `[]`, so the first branch is unreachable (Python
would return the context object itself there). -/
def Context.lookup (st : Ctx) (keystring : String) : Value :=
  match splitDots keystring with
  | [] => Value.vnone
  | k :: rest =>
      match Context.getItem st k with
      | some v => lookupTail v rest
      | none =>
          match Context.getAttr st k with
          | some v => lookupTail v rest
          | none => Value.vnone

/-! Lexer.  The Python lexer walks an index over the template string; we
walk the character list.  Each tag reader scans while at least two
characters remain (`self.index < len(...) - 1`), checking for its
two-character closer at the current position. -/

/-- Compile-time failures.  The first eight constructors model the
`TemplateError` messages raised by the source; `indexError` models the
uncaught Python `IndexError` raised by `Token.keyword` on an instruction
whose text contains no word at all (it is *not* a `TemplateError`). -/
inductive TemplateError where
  | unclosedComment : TemplateError
  | unclosedPrint : TemplateError
  | unclosedInstruction : TemplateError
  | malformedIf : TemplateError
  | malformedFor : TemplateError
  | unexpectedClose : String → TemplateError
  | mismatchedClose : String → String → TemplateError
  | unclosedBlock : String → TemplateError
  | illegalInstruction : String → TemplateError
  | indexError : TemplateError
deriving DecidableEq

/-- Tokens: the three `token_type`s of the source with their text payload. -/
inductive Token where
  | text : String → Token
  | print : String → Token
  | instruction : String → Token
deriving DecidableEq

/-- Scan for the two-character closer `c1 c2` (the loops of
`read_comment_tag` / `read_print_tag` / `read_instruction_tag`): while at
least two characters remain, either the closer starts here — return the
text scanned so far and the remainder past the closer — or advance one
character.  `none` models the unclosed-tag error. -/
def readTagBody (c1 c2 : Char) : List Char → Option (List Char × List Char)
  | a :: b :: rest =>
      if a = c1 && b = c2 then some ([], rest)
      else
        match readTagBody c1 c2 (b :: rest) with
        | some (txt, rem) => some (a :: txt, rem)
        | none => none
  | _ => none

/-- Does a tag opener (`{#`, `{{` or `{%`) start here?  (`Lexer.match`
against the three openers, in the priority order of `tokenize`.) -/
def isTagOpen : List Char → Bool
  | '{' :: '#' :: _ => true
  | '{' :: '{' :: _ => true
  | '{' :: '%' :: _ => true
  | _ => false

/-- `Lexer.read_text`: consume a maximal run of characters up to the next
tag opener (or the end of input), returning the run and the remainder. -/
def readTextBody : List Char → List Char × List Char
  | [] => ([], [])
  | c :: rest =>
      if isTagOpen (c :: rest) then ([], c :: rest)
      else
        match readTextBody rest with
        | (txt, rem) => (c :: txt, rem)

/-- The `tokenize` loop.  The `fuel` argument only bounds the number of
loop iterations so that the recursion is structural: every iteration
consumes at least one character, so with `fuel` initially the input length
(see `tokenize`) the `(0, _ :: _)` branch is unreachable
(`tokenizeAux_fuel` below proves the fuel irrelevant).  Tag text is
whitespace-stripped; comment tags produce no token. -/
def tokenizeAux : Nat → List Char → Except TemplateError (List Token)
  | _, [] => Except.ok []
  | 0, _ :: _ => Except.ok []
  | Nat.succ fuel, '{' :: '#' :: rest =>
      match readTagBody '#' '}' rest with
      | none => Except.error TemplateError.unclosedComment
      | some (_, rem) => tokenizeAux fuel rem
  | Nat.succ fuel, '{' :: '{' :: rest =>
      match readTagBody '}' '}' rest with
      | none => Except.error TemplateError.unclosedPrint
      | some (txt, rem) =>
          match tokenizeAux fuel rem with
          | Except.ok toks => Except.ok (Token.print (String.mk (stripChars txt)) :: toks)
          | Except.error e => Except.error e
  | Nat.succ fuel, '{' :: '%' :: rest =>
      match readTagBody '%' '}' rest with
      | none => Except.error TemplateError.unclosedInstruction
      | some (txt, rem) =>
          match tokenizeAux fuel rem with
          | Except.ok toks => Except.ok (Token.instruction (String.mk (stripChars txt)) :: toks)
          | Except.error e => Except.error e
  | Nat.succ fuel, c :: rest =>
      match readTextBody (c :: rest) with
      | (txt, rem) =>
          match tokenizeAux fuel rem with
          | Except.ok toks => Except.ok (Token.text (String.mk txt) :: toks)
          | Except.error e => Except.error e

/-- `Lexer.tokenize`: chop the template string into a token list. -/
def tokenize (s : String) : Except TemplateError (List Token) :=
  tokenizeAux s.toList.length s.toList

/-! Node tree and grammar of the `if` / `for` argument strings. -/

/-- The node tree.  `container` is the generic `Node` (the root and, in the
source, the two branch containers of an `IfNode`); `ifNode` keeps its raw
child list — as the Python object does after `process_children`, which
copies children into the branches without clearing the list — together with
the two finalized branches. -/
inductive Node where
  | container : List Node → Node
  | text : String → Node
  | print : String → Node
  | ifNode : String → List Node → List Node → List Node → Node
  | elseNode : Node
  | forNode : String → String → List Node → Node

/-- The anchored regex `^if\s+([\w.]+)$` of `IfNode`: the literal `if`, at
least one whitespace character, then a nonempty run of word-or-dot
characters reaching the end of the text.  (`\s` and `[\w.]` are disjoint,
so the greedy regex and this maximal-munch scan agree.) -/
def matchIf (s : String) : Option String :=
  match s.toList with
  | 'i' :: 'f' :: rest =>
      let ws := rest.takeWhile isPySpace
      let arg := rest.dropWhile isPySpace
      if ws ≠ [] && arg ≠ [] && arg.all isWordDot then some (String.mk arg)
      else none
  | _ => none

/-- The anchored regex `^for\s+(\w+)\s+in\s+([\w.]+)$` of `ForNode`, by the
same maximal-munch reading: `for`, whitespace, a word run (the loop
variable), whitespace, the literal `in`, whitespace, and a word-or-dot run
reaching the end. -/
def matchFor (s : String) : Option (String × String) :=
  match s.toList with
  | 'f' :: 'o' :: 'r' :: rest =>
      let ws1 := rest.takeWhile isPySpace
      let r1 := rest.dropWhile isPySpace
      let var := r1.takeWhile isWordChar
      let r2 := r1.dropWhile isWordChar
      let ws2 := r2.takeWhile isPySpace
      let r3 := r2.dropWhile isPySpace
      match r3 with
      | 'i' :: 'n' :: r4 =>
          let ws3 := r4.takeWhile isPySpace
          let arg := r4.dropWhile isPySpace
          if ws1 ≠ [] && var ≠ [] && ws2 ≠ [] && ws3 ≠ [] && arg ≠ [] && arg.all isWordDot
          then some (String.mk var, String.mk arg)
          else none
      | _ => none
  | _ => none

/-- The loop of `IfNode.process_children`: children are appended to the
branch currently pointed at (`useTrue`), starting with the true branch;
every `ElseNode` switches the pointer to the false branch and is itself
dropped. -/
def processChildrenAux (acc : List Node × List Node) (useTrue : Bool) :
    List Node → List Node × List Node
  | [] => acc
  | Node.elseNode :: rest => processChildrenAux acc false rest
  | c :: rest =>
      processChildrenAux
        (if useTrue then (acc.1 ++ [c], acc.2) else (acc.1, acc.2 ++ [c]))
        useTrue rest

/-- `IfNode.process_children`: split the raw child list into the true and
false branches. -/
def processIfChildren (cs : List Node) : List Node × List Node :=
  processChildrenAux ([], []) true cs

/-! Parser.  Python keeps a stack of open nodes (with the root at the
bottom) and a parallel stack `expecting` of closing keywords, and mutates
the node at the top of the stack; we keep the root's accumulated children
and a stack of open blocks (head = innermost), and build each node when its
block is closed.  A finalized node is appended to its parent at close time,
which puts it exactly where Python's open-time append put it, since every
sibling appended in between went to the open block, not to the parent.
The `expecting` stack is in lockstep with the open-block stack (an
end-keyword is pushed exactly when its node is pushed and both pop
together), so it is represented by `OpenBlock.endword` of the open-block
stack. -/

/-- An open `if` or `for` block: its parsed argument(s) and the children
accumulated so far. -/
inductive OpenBlock where
  | ifB : String → List Node → OpenBlock
  | forB : String → String → List Node → OpenBlock

/-- The closing keyword awaited by an open block: the `expecting` entry
pushed alongside it. -/
def OpenBlock.endword : OpenBlock → String
  | OpenBlock.ifB _ _ => "endif"
  | OpenBlock.forB _ _ _ => "endfor"

/-- Append a newly parsed child to an open block. -/
def OpenBlock.addChild : OpenBlock → Node → OpenBlock
  | OpenBlock.ifB p cs, n => OpenBlock.ifB p (cs ++ [n])
  | OpenBlock.forB v p cs, n => OpenBlock.forB v p (cs ++ [n])

/-- Close an open block (`stack[-1].process_children(); stack.pop()`):
an `if` block splits its children into branches, a `for` block keeps them
as its body. -/
def OpenBlock.finalize : OpenBlock → Node
  | OpenBlock.ifB p cs =>
      match processIfChildren cs with
      | (t, f) => Node.ifNode p cs t f
  | OpenBlock.forB v p cs => Node.forNode v p cs

/-- Parser state: the root's accumulated children and the stack of open
blocks (head = innermost). -/
structure PState where
  rootChildren : List Node
  opens : List OpenBlock

/-- `stack[-1].children.append(node)`: the current top of the stack is the
innermost open block, or the root when no block is open. -/
def PState.addChild (st : PState) (n : Node) : PState :=
  match st.opens with
  | [] => { st with rootChildren := st.rootChildren ++ [n] }
  | b :: bs => { st with opens := b.addChild n :: bs }

/-- The `expecting` stack of closing keywords, innermost first. -/
def PState.expecting (st : PState) : List String :=
  st.opens.map OpenBlock.endword

/-- One iteration of the token loop of `Parser.parse`. -/
def parseStep (st : PState) (t : Token) : Except TemplateError PState :=
  match t with
  | Token.text s => Except.ok (st.addChild (Node.text s))
  | Token.print s => Except.ok (st.addChild (Node.print s))
  | Token.instruction s =>
      match keywordOf s with
      | none => Except.error TemplateError.indexError
      | some kw =>
          if kw = "if" then
            match matchIf s with
            | some arg => Except.ok { st with opens := OpenBlock.ifB arg [] :: st.opens }
            | none => Except.error TemplateError.malformedIf
          else if kw = "else" then
            Except.ok (st.addChild Node.elseNode)
          else if kw = "for" then
            match matchFor s with
            | some (v, arg) =>
                Except.ok { st with opens := OpenBlock.forB v arg [] :: st.opens }
            | none => Except.error TemplateError.malformedFor
          else if kw = "endif" || kw = "endfor" then
            match st.opens with
            | [] => Except.error (TemplateError.unexpectedClose kw)
            | b :: bs =>
                if b.endword ≠ kw then
                  Except.error (TemplateError.mismatchedClose b.endword kw)
                else
                  Except.ok (PState.addChild { st with opens := bs } b.finalize)
          else
            Except.error (TemplateError.illegalInstruction kw)

/-- The token loop of `Parser.parse`. -/
def parseTokens : List Token → PState → Except TemplateError PState
  | [], st => Except.ok st
  | t :: rest, st =>
      match parseStep st t with
      | Except.ok st2 => parseTokens rest st2
      | Except.error e => Except.error e

/-- `Parser.parse` over a token list: run the loop from an empty root; fail
with the unclosed-block error naming `expecting[-1]` (the innermost open
block's end keyword) if any block is still open, and return the root
container otherwise. -/
def parseToks (toks : List Token) : Except TemplateError Node :=
  match parseTokens toks { rootChildren := [], opens := [] } with
  | Except.error e => Except.error e
  | Except.ok st =>
      match st.opens with
      | b :: _ => Except.error (TemplateError.unclosedBlock b.endword)
      | [] => Except.ok (Node.container st.rootChildren)

/-- `Template.__init__` up to the compiled tree: `Parser(s).parse()`. -/
def compile (s : String) : Except TemplateError Node :=
  match tokenize s with
  | Except.ok toks => parseToks toks
  | Except.error e => Except.error e

/-! Rendering.  The Python render methods mutate the shared `Context`
(`push` / `__setitem__` / `pop` in `ForNode.render`), so every render
function here threads the context state explicitly and returns it alongside
the produced string. -/

/-- The body of `PrintNode.render` after the lookup: `None` (absent or a
stored `None`) contributes the empty string, every other value its `str`. -/
def printedOf (v : Value) : String :=
  match v with
  | Value.vnone => ""
  | v => pyStr v

/-- The loop of `ForNode.render`, abstracted over the body's render
function: for each item, bind the loop variable in the topmost (pushed)
layer, render the body, and concatenate the outputs in iteration order. -/
def runLoopWith (body : Ctx → String × Ctx) (var : String) :
    List Value → Ctx → String × Ctx
  | [], st => ("", st)
  | item :: items, st =>
      match body (Context.setItem st var item) with
      | (out, st2) =>
          match runLoopWith body var items st2 with
          | (out2, st3) => (out ++ out2, st3)

mutual

/-- Per-variant `render`: `TextNode` yields its raw text; `PrintNode`
resolves and stringifies; `IfNode` resolves its argument and renders the
branch picked by truthiness; `ElseNode` inherits the generic render over
its (always empty) children; `ForNode` resolves its argument and, when the
value is iterable, pushes a scope layer, runs the loop, and pops it. -/
def renderNode : Node → Ctx → String × Ctx
  | Node.container cs, st => renderList cs st
  | Node.text s, st => (s, st)
  | Node.print path, st => (printedOf (Context.lookup st path), st)
  | Node.ifNode path _ t f, st =>
      if (Context.lookup st path).truthy then renderList t st else renderList f st
  | Node.elseNode, st => ("", st)
  | Node.forNode var path cs, st =>
      match (Context.lookup st path).iterate with
      | none => ("", st)
      | some items =>
          match runLoopWith (fun c => renderList cs c) var items (Context.push st) with
          | (out, st2) => (out, Context.pop st2)

/-- Generic `Node.render`: concatenate the children's output in order. -/
def renderList : List Node → Ctx → String × Ctx
  | [], st => ("", st)
  | n :: rest, st =>
      match renderNode n st with
      | (out, st2) =>
          match renderList rest st2 with
          | (out2, st3) => (out ++ out2, st3)

end

/-- `Template.render`: render the compiled root against a fresh context
whose only layer is the caller's data dict. -/
def renderTemplate (root : Node) (data : Layer) : String :=
  (renderNode root [data]).1

/-- Compile-then-render, the composition exercised by the spec's testable
properties: `none` when compilation fails. -/
def compileRender (s : String) (data : Layer) : Option String :=
  match compile s with
  | Except.ok root => some (renderTemplate root data)
  | Except.error _ => none

/-! Specification-side definitions.  These follow the wording of the spec
(not the source) and exist to be compared against the source-translated
definitions above. -/

/-- Per-segment resolution in the words of spec §4.3: "first attempt
mapping-style access ...; if that is not applicable or the key is absent,
attempt attribute-style access". -/
def specSegmentResolve (v : Value) (seg : String) : Option Value :=
  (Value.getItem v seg).orElse (fun _ => Value.getAttr v seg)

/-- Scope-stack scan in the words of spec §3: "Lookup for a single name
scans layers from most-recently-pushed to oldest, returning the first
match (shadowing semantics: inner scope wins)". -/
def specStackScan (st : Ctx) (seg : String) : Option Value :=
  match st.find? (fun layer => (Layer.getKey layer seg).isSome) with
  | some layer => Layer.getKey layer seg
  | none => none

/-- First-segment resolution in the words of spec §4.3: "starting with the
context itself as the current subject", mapping-style access — the layered
scope scan — is attempted first, and if the key is absent from every
layer, attribute-style access on that subject (the context object). -/
def specFirstSegment (st : Ctx) (seg : String) : Option Value :=
  (specStackScan st seg).orElse (fun _ => Context.getAttr st seg)

/-- Dotted-path resolution in the words of spec §4.3: split the path on
`.`; the first segment is resolved against the layered scope stack,
subsequent segments against the value produced by the previous segment;
a failed segment makes the whole result "absent" (`none`). -/
def specLookup (st : Ctx) (path : String) : Option Value :=
  match splitDots path with
  | [] => none
  | first :: rest =>
      rest.foldl (fun acc seg => acc.bind (fun v => specSegmentResolve v seg))
        (specFirstSegment st first)

/-- Dotted paths in the words of spec §4.2: "one or more identifier
segments joined by `.`", an identifier being a (non-digit-initial) word. -/
def isIdentifier (s : String) : Bool :=
  match s.toList with
  | [] => false
  | c :: cs => (c.isAlpha || c = '_') && cs.all isWordChar

/-- Whether a string is a dotted path of identifier segments, following
the spec's words (`splitDots` never returns `[]`, so this demands at least
one segment). -/
def specDottedPath (s : String) : Bool :=
  (splitDots s).all isIdentifier

/-! Further executable definitions used to state the claims. -/

/-- The string contributed by printing each value of a list in order:
what the body `(print v)` of a loop over those values produces. -/
def printedConcat : List Value → String
  | [] => ""
  | v :: rest => printedOf v ++ printedConcat rest

mutual

/-- Whether a node tree contains an `ElseNode` anywhere (branches and
retained raw child lists included). -/
def hasElseNode : Node → Bool
  | Node.container cs => hasElseList cs
  | Node.text _ => false
  | Node.print _ => false
  | Node.elseNode => true
  | Node.ifNode _ cs t f => hasElseList cs || hasElseList t || hasElseList f
  | Node.forNode _ _ cs => hasElseList cs

def hasElseList : List Node → Bool
  | [] => false
  | n :: rest => hasElseNode n || hasElseList rest

end

mutual

/-- Branch-finalization invariant of a node tree: every `ifNode` carries
branches equal to the `process_children` partition of its raw child list,
recursively. -/
def goodIf : Node → Prop
  | Node.container cs => goodIfList cs
  | Node.text _ => True
  | Node.print _ => True
  | Node.elseNode => True
  | Node.ifNode _ cs t f =>
      processIfChildren cs = (t, f) ∧ goodIfList cs ∧ goodIfList t ∧ goodIfList f
  | Node.forNode _ _ cs => goodIfList cs

def goodIfList : List Node → Prop
  | [] => True
  | n :: rest => goodIf n ∧ goodIfList rest

end

/-- Children of an open block accumulated so far. -/
def OpenBlock.children : OpenBlock → List Node
  | OpenBlock.ifB _ cs => cs
  | OpenBlock.forB _ _ cs => cs

/-- Parser-state invariant: every already-built node is branch-finalized. -/
def PStateWf (st : PState) : Prop :=
  goodIfList st.rootChildren ∧ ∀ b ∈ st.opens, goodIfList b.children

/-- Whether one of the three tag openers occurs anywhere in the string. -/
def hasTagOpen : List Char → Bool
  | [] => false
  | c :: rest => isTagOpen (c :: rest) || hasTagOpen rest

/-- The language of the anchored regex `^if\s+([\w.]+)$`, stated
declaratively: the text decomposes as `if`, a nonempty whitespace run, and
a nonempty word-or-dot run. -/
def ifShape (t : String) : Prop :=
  ∃ w a : List Char, w ≠ [] ∧ w.all isPySpace = true ∧ a ≠ [] ∧ a.all isWordDot = true ∧
    t.toList = 'i' :: 'f' :: (w ++ a)

/-- The language of the anchored regex `^for\s+(\w+)\s+in\s+([\w.]+)$`,
stated declaratively. -/
def forShape (t : String) : Prop :=
  ∃ w1 v w2 w3 a : List Char,
    w1 ≠ [] ∧ w1.all isPySpace = true ∧ v ≠ [] ∧ v.all isWordChar = true ∧
    w2 ≠ [] ∧ w2.all isPySpace = true ∧ w3 ≠ [] ∧ w3.all isPySpace = true ∧
    a ≠ [] ∧ a.all isWordDot = true ∧
    t.toList = 'f' :: 'o' :: 'r' :: (w1 ++ (v ++ (w2 ++ ('i' :: 'n' :: (w3 ++ a)))))

/-! Helper lemmas: dict access, context access, and the state discipline of
rendering. -/

theorem getKey_setKey_same (l : Layer) (k : String) (v : Value) :
    Layer.getKey (Layer.setKey l k v) k = some v := by
  induction l with
  | nil => simp [Layer.setKey, Layer.getKey]
  | cons kv rest ih =>
      cases kv with
      | mk k2 v2 =>
          by_cases h : k2 = k
          · simp [Layer.setKey, Layer.getKey, h]
          · simp [Layer.setKey, Layer.getKey, h, ih]

theorem getKey_setKey_other (l : Layer) (k k2 : String) (v : Value)
    (h : k2 ≠ k) : Layer.getKey (Layer.setKey l k v) k2 = Layer.getKey l k2 := by
  induction l with
  | nil => simp [Layer.setKey, Layer.getKey, h, Ne.symm h]
  | cons kv rest ih =>
      cases kv with
      | mk k3 v3 =>
          by_cases h3 : k3 = k
          · subst h3
            simp [Layer.setKey, Layer.getKey, Ne.symm h, h]
          · by_cases h4 : k3 = k2
            · subst h4
              simp [Layer.setKey, Layer.getKey, h3, h, Ne.symm h]
            · simp [Layer.setKey, Layer.getKey, h3, h4, ih]

theorem setItem_cons (l : Layer) (rest : Ctx) (k : String) (v : Value) :
    Context.setItem (l :: rest) k v = Layer.setKey l k v :: rest := rfl

/-- Binding the loop variable leaves the resolution of every other name
unchanged. -/
theorem getItem_setItem_other (st : Ctx) (var k : String) (item : Value)
    (h : k ≠ var) :
    Context.getItem (Context.setItem st var item) k = Context.getItem st k := by
  cases st with
  | nil => rfl
  | cons l rest =>
      simp [Context.setItem, Context.getItem, getKey_setKey_other l var k item h]

/-- The state left by the loop of `ForNode.render`, for any state-preserving
body: the successive loop-variable bindings, folded over the context. -/
theorem runLoopWith_state (body : Ctx → String × Ctx)
    (hbody : ∀ c, (body c).2 = c) (var : String) :
    ∀ (items : List Value) (st : Ctx),
      (runLoopWith body var items st).2 =
        items.foldl (fun s it => Context.setItem s var it) st := by
  intro items
  induction items with
  | nil => intro st; simp [runLoopWith]
  | cons item items ih =>
      intro st
      simp only [runLoopWith, List.foldl_cons]
      have h1 := hbody (Context.setItem st var item)
      cases hb : body (Context.setItem st var item) with
      | mk out st2 =>
          cases hr : runLoopWith body var items st2 with
          | mk out2 st3 =>
              simp only []
              have := ih st2
              rw [hr] at this
              simp only at this
              subst this
              rw [hb] at h1
              simp at h1
              subst h1
              rfl

/-- Loop-variable bindings only ever touch the topmost layer: the layers
below survive the whole loop unchanged. -/
theorem foldl_setItem_shape (var : String) :
    ∀ (items : List Value) (l : Layer) (rest : Ctx),
      ∃ l2, items.foldl (fun s it => Context.setItem s var it) (l :: rest) = l2 :: rest := by
  intro items
  induction items with
  | nil => intro l rest; exact ⟨l, rfl⟩
  | cons item items ih =>
      intro l rest
      simpa [setItem_cons] using ih (Layer.setKey l var item) rest

mutual

/-- Rendering any node returns the context stack it was given: every layer
pushed during rendering is popped again, and only layers pushed by a loop
are ever written to. -/
theorem renderNode_state (n : Node) (st : Ctx) : (renderNode n st).2 = st := by
  match n with
  | Node.container cs => exact renderList_state cs st
  | Node.text s => rfl
  | Node.print p => rfl
  | Node.ifNode p cs t f =>
      simp only [renderNode]
      split
      · exact renderList_state t st
      · exact renderList_state f st
  | Node.elseNode => rfl
  | Node.forNode var p cs =>
      simp only [renderNode]
      split
      · rfl
      · rename_i items _
        have hb : ∀ c, (renderList cs c).2 = c := fun c => renderList_state cs c
        have h := runLoopWith_state (fun c => renderList cs c) hb var items (Context.push st)
        cases hr : runLoopWith (fun c => renderList cs c) var items (Context.push st) with
        | mk out st2 =>
            rw [hr] at h
            simp only at h
            obtain ⟨l2, hl⟩ := foldl_setItem_shape var items [] st
            simp only [Context.push] at h
            rw [hl] at h
            subst h
            simp [Context.pop]

theorem renderList_state (l : List Node) (st : Ctx) : (renderList l st).2 = st := by
  match l with
  | [] => rfl
  | n :: rest =>
      simp only [renderList]
      cases hn : renderNode n st with
      | mk out st2 =>
          cases hr : renderList rest st2 with
          | mk out2 st3 =>
              have h1 := renderNode_state n st
              have h2 := renderList_state rest st2
              rw [hn] at h1
              rw [hr] at h2
              simp only at h1 h2
              simp only [hr]
              subst h1
              exact h2

end

/-! Lemmas relating `Context.lookup` to the spec-side definitions. -/

theorem getItem_eq_specScan (st : Ctx) (k : String) :
    Context.getItem st k = specStackScan st k := by
  induction st with
  | nil => rfl
  | cons layer rest ih =>
      cases h : Layer.getKey layer k with
      | some v =>
          simp [Context.getItem, specStackScan, List.find?, h]
      | none =>
          simp [Context.getItem, specStackScan, List.find?, h]
          simpa [specStackScan] using ih

theorem foldl_bind_none (f : Value → String → Option Value) (segs : List String) :
    segs.foldl (fun acc seg => acc.bind (fun v => f v seg)) none = none := by
  induction segs with
  | nil => rfl
  | cons s rest ih => simpa using ih

theorem lookupTail_eq_spec (segs : List String) :
    ∀ v, lookupTail v segs =
      (segs.foldl (fun acc seg => acc.bind (fun v => specSegmentResolve v seg))
        (some v)).getD Value.vnone := by
  induction segs with
  | nil => intro v; rfl
  | cons seg rest ih =>
      intro v
      have hrs : specSegmentResolve v seg = resolveSeg v seg := by
        simp only [specSegmentResolve, resolveSeg]
        cases hg : Value.getItem v seg <;> simp [Option.orElse, hg]
      simp only [lookupTail, List.foldl_cons]
      have hb : (Option.some v).bind (fun x => specSegmentResolve x seg) =
          specSegmentResolve v seg := rfl
      rw [hb, hrs]
      cases h : resolveSeg v seg with
      | some r => exact ih r
      | none => rw [foldl_bind_none]; rfl

/-! Lemmas for rendering the loop template `(for v in L) (print v)`. -/

theorem printedOf_of_ne (v : Value) (h : v ≠ Value.vnone) : printedOf v = pyStr v := by
  cases v with
  | vnone => exact absurd rfl h
  | vbool b => rfl
  | vint n => rfl
  | vstr s => rfl
  | vlist xs => rfl
  | vdict m => rfl
  | vobj a => rfl
  | vmethod n => rfl

theorem renderList_single (n : Node) (st : Ctx) :
    renderList [n] st = ((renderNode n st).1 ++ "", (renderNode n st).2) := by
  simp only [renderList]

theorem renderTemplate_single (n : Node) (data : Layer) :
    renderTemplate (Node.container [n]) data = (renderNode n [data]).1 ++ "" := by
  unfold renderTemplate
  show (renderList [n] [data]).1 = _
  rw [renderList_single]

theorem lookup_setKey_var (var : String) (hv : splitDots var = [var])
    (l : Layer) (rest : Ctx) (item : Value) :
    Context.lookup (Layer.setKey l var item :: rest) var = item := by
  unfold Context.lookup
  rw [hv]
  simp [Context.getItem, getKey_setKey_same, lookupTail]

theorem runLoopWith_print_out (var : String) (hv : splitDots var = [var]) :
    ∀ (items : List Value) (l : Layer) (rest : Ctx),
      (runLoopWith (fun c => renderList [Node.print var] c) var items (l :: rest)).1
        = printedConcat items := by
  intro items
  induction items with
  | nil => intro l rest; rfl
  | cons item items ih =>
      intro l rest
      have hbody : renderList [Node.print var] (Layer.setKey l var item :: rest)
          = (printedOf item ++ "", Layer.setKey l var item :: rest) := by
        rw [renderList_single]
        simp only [renderNode, lookup_setKey_var var hv]
      cases hr : runLoopWith (fun c => renderList [Node.print var] c) var items
          (Layer.setKey l var item :: rest) with
      | mk out2 st3 =>
          have h2 := ih (Layer.setKey l var item) rest
          rw [hr] at h2
          simp only at h2
          simp only [runLoopWith, setItem_cons, hbody, hr]
          simp [printedConcat, h2]

/-- Rendering a loop node whose body prints the loop variable: the output
is the printed concatenation of the items of the resolved collection, and
the context is restored. -/
theorem renderNode_forPrint (var path : String) (hv : splitDots var = [var])
    (items : List Value) (st : Ctx)
    (h : (Context.lookup st path).iterate = some items) :
    renderNode (Node.forNode var path [Node.print var]) st = (printedConcat items, st) := by
  simp only [renderNode, h]
  cases hr : runLoopWith (fun c => renderList [Node.print var] c) var items (Context.push st) with
  | mk out st2 =>
      have hout := runLoopWith_print_out var hv items [] st
      rw [show Context.push st = ([] : Layer) :: st from rfl] at hr
      rw [hr] at hout
      simp only at hout
      have hst := runLoopWith_state (fun c => renderList [Node.print var] c)
        (fun c => renderList_state [Node.print var] c) var items (([] : Layer) :: st)
      rw [hr] at hst
      simp only at hst
      obtain ⟨l2, hl⟩ := foldl_setItem_shape var items [] st
      rw [hl] at hst
      subst hout hst
      simp [Context.pop]

/-! Lemmas for the branch-finalization invariant (C5): membership in the
`process_children` partition, and preservation of `PStateWf` across the
parser's token loop. -/

theorem goodIfList_iff (l : List Node) : goodIfList l ↔ ∀ x ∈ l, goodIf x := by
  induction l with
  | nil => simp [goodIfList]
  | cons n rest ih => simp [goodIfList, ih]

theorem processAux_cons_not_else (acc : List Node × List Node) (flag : Bool)
    (c : Node) (rest : List Node) (h : c ≠ Node.elseNode) :
    processChildrenAux acc flag (c :: rest) =
      processChildrenAux (if flag then (acc.1 ++ [c], acc.2) else (acc.1, acc.2 ++ [c]))
        flag rest := by
  cases c
  case elseNode => exact absurd rfl h
  all_goals rfl

theorem processAux_subset (cs : List Node) :
    ∀ (acc : List Node × List Node) (flag : Bool) (x : Node),
      (x ∈ (processChildrenAux acc flag cs).1 → x ∈ acc.1 ∨ x ∈ cs) ∧
      (x ∈ (processChildrenAux acc flag cs).2 → x ∈ acc.2 ∨ x ∈ cs) := by
  induction cs with
  | nil =>
      intro acc flag x
      constructor <;> intro h <;> exact Or.inl h
  | cons c rest ih =>
      intro acc flag x
      rcases Classical.em (c = Node.elseNode) with hc | hc
      · subst hc
        have h := ih acc false x
        exact ⟨fun hx => (h.1 hx).imp id (List.mem_cons_of_mem _),
               fun hx => (h.2 hx).imp id (List.mem_cons_of_mem _)⟩
      · rw [processAux_cons_not_else acc flag c rest hc]
        have h := ih (if flag then (acc.1 ++ [c], acc.2) else (acc.1, acc.2 ++ [c])) flag x
        constructor
        · intro hx
          rcases h.1 hx with h1 | h1
          · by_cases hf : flag
            · simp [hf] at h1
              rcases h1 with h1 | h1
              · exact Or.inl h1
              · exact Or.inr (by simp [h1])
            · simp [hf] at h1
              exact Or.inl h1
          · exact Or.inr (List.mem_cons_of_mem _ h1)
        · intro hx
          rcases h.2 hx with h1 | h1
          · by_cases hf : flag
            · simp [hf] at h1
              exact Or.inl h1
            · simp [hf] at h1
              rcases h1 with h1 | h1
              · exact Or.inl h1
              · exact Or.inr (by simp [h1])
          · exact Or.inr (List.mem_cons_of_mem _ h1)

theorem goodIf_processIf (cs : List Node) (h : goodIfList cs) :
    goodIfList (processIfChildren cs).1 ∧ goodIfList (processIfChildren cs).2 := by
  constructor <;> rw [goodIfList_iff] <;> intro x hx
  · rcases (processAux_subset cs ([], []) true x).1 hx with h1 | h1
    · simp at h1
    · exact (goodIfList_iff cs).1 h x h1
  · rcases (processAux_subset cs ([], []) true x).2 hx with h1 | h1
    · simp at h1
    · exact (goodIfList_iff cs).1 h x h1

theorem goodIfList_append (l : List Node) (n : Node) :
    goodIfList (l ++ [n]) ↔ goodIfList l ∧ goodIf n := by
  simp [goodIfList_iff]
  constructor
  · intro h
    exact ⟨fun x hx => h x (Or.inl hx), h n (Or.inr rfl)⟩
  · rintro ⟨h1, h2⟩ x (hx | rfl)
    · exact h1 x hx
    · exact h2

theorem children_addChild (b : OpenBlock) (n : Node) :
    (b.addChild n).children = b.children ++ [n] := by
  cases b <;> rfl

theorem addChild_wf (st : PState) (n : Node) (hst : PStateWf st) (hn : goodIf n) :
    PStateWf (st.addChild n) := by
  obtain ⟨hroot, hopens⟩ := hst
  unfold PState.addChild
  cases hop : st.opens with
  | nil =>
      refine ⟨?_, ?_⟩
      · exact (goodIfList_append _ _).2 ⟨hroot, hn⟩
      · intro b hb
        simp at hb
  | cons b bs =>
      refine ⟨hroot, ?_⟩
      intro b' hb'
      rcases List.mem_cons.1 hb' with h1 | h1
      · subst h1
        rw [children_addChild]
        exact (goodIfList_append _ _).2 ⟨hopens b (by rw [hop]; exact List.mem_cons_self b bs), hn⟩
      · exact hopens b' (by rw [hop]; exact List.mem_cons_of_mem _ h1)

theorem goodIf_finalize (b : OpenBlock) (h : goodIfList b.children) :
    goodIf b.finalize := by
  cases b with
  | ifB p cs =>
      simp only [OpenBlock.finalize]
      cases hpc : processIfChildren cs with
      | mk t f =>
          have hb := goodIf_processIf cs h
          rw [hpc] at hb
          exact ⟨hpc, h, hb.1, hb.2⟩
  | forB v p cs => exact h

theorem parseStep_wf (st : PState) (t : Token) (st2 : PState)
    (hst : PStateWf st) (h : parseStep st t = Except.ok st2) : PStateWf st2 := by
  cases t with
  | text s =>
      simp only [parseStep] at h
      injection h with h
      subst h
      exact addChild_wf st _ hst trivial
  | print s =>
      simp only [parseStep] at h
      injection h with h
      subst h
      exact addChild_wf st _ hst trivial
  | instruction s =>
      simp only [parseStep] at h
      split at h
      · exact absurd h (by simp)
      · split at h
        · -- keyword "if"
          split at h
          · injection h with h
            subst h
            obtain ⟨hroot, hopens⟩ := hst
            refine ⟨hroot, ?_⟩
            intro b hb
            rcases List.mem_cons.1 hb with h1 | h1
            · subst h1; exact trivial
            · exact hopens b h1
          · exact absurd h (by simp)
        · split at h
          · -- keyword "else"
            injection h with h
            subst h
            exact addChild_wf st _ hst trivial
          · split at h
            · -- keyword "for"
              split at h
              · injection h with h
                subst h
                obtain ⟨hroot, hopens⟩ := hst
                refine ⟨hroot, ?_⟩
                intro b hb
                rcases List.mem_cons.1 hb with h1 | h1
                · subst h1; exact trivial
                · exact hopens b h1
              · exact absurd h (by simp)
            · split at h
              · -- closing keyword
                split at h
                · exact absurd h (by simp)
                · rename_i b bs hop
                  split at h
                  · exact absurd h (by simp)
                  · injection h with h
                    subst h
                    obtain ⟨hroot, hopens⟩ := hst
                    have hb : goodIfList b.children :=
                      hopens b (by rw [hop]; exact List.mem_cons_self b bs)
                    refine addChild_wf _ _ ⟨hroot, ?_⟩ (goodIf_finalize b hb)
                    intro b2 hb2
                    exact hopens b2 (by rw [hop]; exact List.mem_cons_of_mem _ hb2)
              · exact absurd h (by simp)

theorem parseTokens_wf : ∀ (toks : List Token) (st st2 : PState),
    PStateWf st → parseTokens toks st = Except.ok st2 → PStateWf st2 := by
  intro toks
  induction toks with
  | nil =>
      intro st st2 h1 h2
      injection h2 with h2
      subst h2
      exact h1
  | cons t rest ih =>
      intro st st2 h1 h2
      simp only [parseTokens] at h2
      cases hp : parseStep st t with
      | error e => rw [hp] at h2; exact absurd h2 (by simp)
      | ok stm =>
          rw [hp] at h2
          exact ih stm st2 (parseStep_wf st t stm h1 hp) h2

/-! Lemmas characterizing the argument grammars of `if` and `for` tags
(C6): character-class facts, `takeWhile`/`dropWhile` decompositions, the
declarative descriptions of the two regex languages, and the parser
transitions on instruction tokens. -/

theorem space_not_wordDot (c : Char) (h : isPySpace c = true) : isWordDot c = false := by
  simp only [isPySpace, Bool.or_eq_true, decide_eq_true_eq] at h
  rcases h with ((((h | h) | h) | h) | h) | h <;> subst h <;> decide

theorem wordDot_not_space (c : Char) (h : isWordDot c = true) : isPySpace c = false := by
  cases hs : isPySpace c with
  | false => rfl
  | true => rw [space_not_wordDot c hs] at h; exact absurd h (by simp)

theorem wordChar_not_space (c : Char) (h : isWordChar c = true) : isPySpace c = false := by
  apply wordDot_not_space
  simp [isWordDot, h]

theorem takeWhile_append_all (p : Char → Bool) (w a : List Char)
    (hw : w.all p = true) (ha : ∀ c, a.head? = some c → p c = false) :
    (w ++ a).takeWhile p = w ∧ (w ++ a).dropWhile p = a := by
  induction w with
  | nil =>
      cases a with
      | nil => exact ⟨rfl, rfl⟩
      | cons c rest =>
          have hc := ha c rfl
          simp [List.takeWhile, List.dropWhile, hc]
  | cons x w2 ih =>
      simp only [List.all_cons, Bool.and_eq_true] at hw
      have h2 := ih hw.2
      simp [List.takeWhile, List.dropWhile, hw.1, h2.1, h2.2]

theorem head_not_space_of_wordDot (a : List Char) (h4 : a.all isWordDot = true) :
    ∀ c, a.head? = some c → isPySpace c = false := by
  intro c hc
  cases a with
  | nil => exact absurd hc (by simp)
  | cons c2 rest =>
      simp only [List.head?] at hc
      injection hc with hc
      simp only [List.all_cons, Bool.and_eq_true] at h4
      subst hc
      exact wordDot_not_space c2 h4.1

theorem matchIf_some_iff (t : String) :
    (∃ arg, matchIf t = some arg) ↔ ifShape t := by
  constructor
  · rintro ⟨arg, h⟩
    unfold matchIf at h
    split at h
    · rename_i rest hl
      dsimp only at h
      split at h
      · rename_i hcond
        simp only [ne_eq, Bool.and_eq_true, decide_eq_true_eq] at hcond
        obtain ⟨⟨hw, ha⟩, hall⟩ := hcond
        refine ⟨rest.takeWhile isPySpace, rest.dropWhile isPySpace, hw, List.all_takeWhile,
          ha, hall, ?_⟩
        rw [hl, List.takeWhile_append_dropWhile]
      · exact absurd h (by simp)
    · exact absurd h (by simp)
  · rintro ⟨w, a, h1, h2, h3, h4, h5⟩
    have hdec := takeWhile_append_all isPySpace w a h2 (head_not_space_of_wordDot a h4)
    refine ⟨String.mk a, ?_⟩
    unfold matchIf
    rw [h5]
    show (if (decide (List.takeWhile isPySpace (w ++ a) ≠ []) &&
            decide (List.dropWhile isPySpace (w ++ a) ≠ []) &&
            (List.dropWhile isPySpace (w ++ a)).all isWordDot) = true
        then some (String.mk (List.dropWhile isPySpace (w ++ a))) else none)
      = some (String.mk a)
    rw [hdec.1, hdec.2]
    simp [h1, h3, h4]

theorem space_not_wordChar (c : Char) (h : isPySpace c = true) : isWordChar c = false := by
  have h2 := space_not_wordDot c h
  simp only [isWordDot, Bool.or_eq_false_iff] at h2
  exact h2.1

theorem head_append (c : Char) (l : List Char) (rest : List Char) :
    ((c :: l) ++ rest).head? = some c := rfl

theorem matchFor_some_iff (t : String) :
    (∃ p, matchFor t = some p) ↔ forShape t := by
  constructor
  · rintro ⟨pr, h⟩
    unfold matchFor at h
    split at h
    · rename_i rest hl
      dsimp only at h
      split at h
      · rename_i r4 heq
        split at h
        · rename_i hcond
          simp only [ne_eq, Bool.and_eq_true, decide_eq_true_eq] at hcond
          obtain ⟨⟨⟨⟨⟨hw1, hvar⟩, hw2⟩, hw3⟩, ha⟩, hall⟩ := hcond
          refine ⟨rest.takeWhile isPySpace,
                  (rest.dropWhile isPySpace).takeWhile isWordChar,
                  ((rest.dropWhile isPySpace).dropWhile isWordChar).takeWhile isPySpace,
                  r4.takeWhile isPySpace, r4.dropWhile isPySpace,
                  hw1, List.all_takeWhile, hvar, List.all_takeWhile,
                  hw2, List.all_takeWhile, hw3, List.all_takeWhile, ha, hall, ?_⟩
          rw [hl]
          have e1 : List.takeWhile isPySpace r4 ++ List.dropWhile isPySpace r4 = r4 :=
            List.takeWhile_append_dropWhile _ _
          have e2 : List.takeWhile isPySpace
                ((rest.dropWhile isPySpace).dropWhile isWordChar) ++ ('i' :: 'n' :: r4)
              = (rest.dropWhile isPySpace).dropWhile isWordChar := by
            rw [← heq]
            exact List.takeWhile_append_dropWhile _ _
          have e3 : List.takeWhile isWordChar (rest.dropWhile isPySpace) ++
                (rest.dropWhile isPySpace).dropWhile isWordChar = rest.dropWhile isPySpace :=
            List.takeWhile_append_dropWhile _ _
          have e4 : List.takeWhile isPySpace rest ++ rest.dropWhile isPySpace = rest :=
            List.takeWhile_append_dropWhile _ _
          rw [e1, e2, e3, e4]
        · exact absurd h (by simp)
      · exact absurd h (by simp)
    · exact absurd h (by simp)
  · rintro ⟨w1, v, w2, w3, a, h1, h2, h3, h4, h5, h6, h7, h8, h9, h10, h11⟩
    have hva : ∀ c, (v ++ (w2 ++ ('i' :: 'n' :: (w3 ++ a)))).head? = some c → isPySpace c = false := by
      cases v with
      | nil => exact absurd rfl h3
      | cons c2 r =>
          intro c hc
          rw [head_append] at hc
          injection hc with hc
          simp only [List.all_cons, Bool.and_eq_true] at h4
          subst hc
          exact wordChar_not_space c2 h4.1
    have hw2a : ∀ c, (w2 ++ ('i' :: 'n' :: (w3 ++ a))).head? = some c → isWordChar c = false := by
      cases w2 with
      | nil => exact absurd rfl h5
      | cons c2 r =>
          intro c hc
          rw [head_append] at hc
          injection hc with hc
          simp only [List.all_cons, Bool.and_eq_true] at h6
          subst hc
          exact space_not_wordChar c2 h6.1
    have hin : ∀ c, ('i' :: 'n' :: (w3 ++ a) : List Char).head? = some c → isPySpace c = false := by
      intro c hc
      injection hc with hc
      subst hc
      decide
    have d1 := takeWhile_append_all isPySpace w1 (v ++ (w2 ++ ('i' :: 'n' :: (w3 ++ a)))) h2 hva
    have d2 := takeWhile_append_all isWordChar v (w2 ++ ('i' :: 'n' :: (w3 ++ a))) h4 hw2a
    have d3 := takeWhile_append_all isPySpace w2 ('i' :: 'n' :: (w3 ++ a)) h6 hin
    have d4 := takeWhile_append_all isPySpace w3 a h8 (head_not_space_of_wordDot a h10)
    refine ⟨(String.mk v, String.mk a), ?_⟩
    unfold matchFor
    rw [h11]
    simp only [d1.1, d1.2, d2.1, d2.2, d3.1, d3.2, d4.1, d4.2]
    simp [h1, h3, h5, h7, h9, h10]

theorem parseStep_if_ok (t : String) (st : PState) (arg : String)
    (hk : keywordOf t = some "if") (hm : matchIf t = some arg) :
    parseStep st (Token.instruction t) =
      Except.ok { st with opens := OpenBlock.ifB arg [] :: st.opens } := by
  simp only [parseStep, hk, hm]
  simp

theorem parseStep_if_err (t : String) (st : PState)
    (hk : keywordOf t = some "if") (hm : matchIf t = none) :
    parseStep st (Token.instruction t) = Except.error TemplateError.malformedIf := by
  simp only [parseStep, hk, hm]
  simp

theorem parseStep_for_ok (t : String) (st : PState) (v arg : String)
    (hk : keywordOf t = some "for") (hm : matchFor t = some (v, arg)) :
    parseStep st (Token.instruction t) =
      Except.ok { st with opens := OpenBlock.forB v arg [] :: st.opens } := by
  simp only [parseStep, hk, hm]
  simp

theorem parseStep_for_err (t : String) (st : PState)
    (hk : keywordOf t = some "for") (hm : matchFor t = none) :
    parseStep st (Token.instruction t) = Except.error TemplateError.malformedFor := by
  simp only [parseStep, hk, hm]
  simp

/-! Claims. -/

/-- C1: `Context.lookup` splits the path on `.` and resolves the segments
left to right, trying mapping-style access before attribute-style access on
each segment; the first segment is resolved against the scope-layer stack
innermost-first with the attribute fallback on the context object itself,
later segments against the value produced by the previous segment; if
neither access succeeds the whole path resolves to "absent".  Formally,
the source-translated `Context.lookup` coincides with `specLookup`, which
is written from the spec's words over the same access primitives
(`Layer.getKey`, `Value.getItem`, `Value.getAttr`, `Context.getAttr` —
whose documented modelling boundary is Python's builtin attributes), with
`none` ("absent") collapsed to the `None` sentinel the source returns.
That `lookup` never raises is intrinsic here: it is a total function, the
raised-and-caught accesses being the `Option` failures inside the access
primitives.  The final conjunct exhibits the context-attribute fallback in
action: rendering the path `stack` against an empty data dict prints the
layer stack itself, not the empty string. -/
theorem claim_C1_lookup_follows_spec :
    (∀ (st : Ctx) (path : String),
        Context.lookup st path = (specLookup st path).getD Value.vnone)
  ∧ Context.lookup [[]] "stack" = Value.vlist [Value.vdict []]
  ∧ compileRender "\x7b\x7b stack \x7d\x7d" [] = some "[\x7b\x7d]" := by
  refine ⟨fun st path => ?_, rfl, rfl⟩
  unfold Context.lookup specLookup
  cases splitDots path with
  | nil => rfl
  | cons first rest =>
      dsimp only
      unfold specFirstSegment
      rw [← getItem_eq_specScan]
      cases hg : Context.getItem st first with
      | some v =>
          simpa [Option.orElse] using lookupTail_eq_spec rest v
      | none =>
          simp only [Option.orElse]
          cases ha : Context.getAttr st first with
          | some v => simpa using lookupTail_eq_spec rest v
          | none => simp [foldl_bind_none]

/-- C2 counterexample: with `v = None`, rendering `(print a.b)` against
`a = dict(b = None)` yields the empty string, not `str(None) = "None"` as
the claim demands for every value `v`: the source cannot distinguish a
stored `None` from an absent key. -/
theorem claim_C2_counterexample :
    compileRender "\x7b\x7b a.b \x7d\x7d" [("a", Value.vdict [("b", Value.vnone)])] = some ""
      ∧ pyStr Value.vnone = "None" :=
  ⟨rfl, rfl⟩

/-- C2 amended: rendering the compiled template `(print a.b)` against
`a = dict(b = v)` returns `str(v)` for every value `v` other than `None`;
for `v = None`, and whenever the key `b` is absent from the inner mapping,
it returns the empty string. -/
theorem claim_C2_amended :
    (∀ v : Value, v ≠ Value.vnone →
        compileRender "\x7b\x7b a.b \x7d\x7d" [("a", Value.vdict [("b", v)])]
          = some (pyStr v))
  ∧ (compileRender "\x7b\x7b a.b \x7d\x7d" [("a", Value.vdict [("b", Value.vnone)])]
        = some "")
  ∧ (∀ inner : Layer, Layer.getKey inner "b" = none →
        compileRender "\x7b\x7b a.b \x7d\x7d" [("a", Value.vdict inner)] = some "") := by
  refine ⟨fun v h => ?_, rfl, fun inner h => ?_⟩
  · show some (printedOf v ++ "") = some (pyStr v)
    rw [String.append_empty, printedOf_of_ne v h]
  · show some (printedOf (Context.lookup [[("a", Value.vdict inner)]] "a.b") ++ "") = some ""
    have hl : Context.lookup [[("a", Value.vdict inner)]] "a.b" = Value.vnone := by
      show lookupTail (Value.vdict inner) ["b"] = Value.vnone
      simp [lookupTail, resolveSeg, Value.getItem, Value.getAttr, h]
    rw [hl]
    rfl

/-- C2 witness: the amended claim evaluated at `v = 42` and at an inner
mapping without the key `b`. -/
theorem claim_C2_witness :
    compileRender "\x7b\x7b a.b \x7d\x7d" [("a", Value.vdict [("b", Value.vint 42)])]
        = some "42"
      ∧ compileRender "\x7b\x7b a.b \x7d\x7d" [("a", Value.vdict [("x", Value.vint 1)])]
        = some "" := by
  constructor
  · exact claim_C2_amended.1 (Value.vint 42) (fun h => Value.noConfusion h)
  · exact claim_C2_amended.2.2 [("x", Value.vint 1)] rfl

/-- C3 counterexample: looping over `[None]` with a body that prints the
loop variable yields the empty string, not `str(None) = "None"` as the
claimed `stringify`-concatenation demands for every finite sequence. -/
theorem claim_C3_counterexample :
    compileRender "\x7b% for v in L %\x7d\x7b\x7bv\x7d\x7d\x7b% endfor %\x7d"
        [("L", Value.vlist [Value.vnone])] = some ""
      ∧ pyStr Value.vnone = "None" :=
  ⟨rfl, rfl⟩

/-- C3 amended: rendering the loop template over a list yields the
concatenation, in order, of the printed form of each element — `str` of the
element except that `None` elements contribute the empty string; the empty
list, an absent `L`, and a non-iterable `L` all yield the empty string.
For lists of three non-`None` values this is exactly the claimed
`stringify(a) + stringify(b) + stringify(c)`. -/
theorem claim_C3_amended :
    (∀ items : List Value,
        compileRender "\x7b% for v in L %\x7d\x7b\x7bv\x7d\x7d\x7b% endfor %\x7d"
          [("L", Value.vlist items)] = some (printedConcat items))
  ∧ (compileRender "\x7b% for v in L %\x7d\x7b\x7bv\x7d\x7d\x7b% endfor %\x7d"
        [("L", Value.vlist [])] = some "")
  ∧ (compileRender "\x7b% for v in L %\x7d\x7b\x7bv\x7d\x7d\x7b% endfor %\x7d" []
        = some "")
  ∧ (∀ v : Value, Value.iterate v = none →
        compileRender "\x7b% for v in L %\x7d\x7b\x7bv\x7d\x7d\x7b% endfor %\x7d"
          [("L", v)] = some "")
  ∧ (∀ a b c : Value, a ≠ Value.vnone → b ≠ Value.vnone → c ≠ Value.vnone →
        compileRender "\x7b% for v in L %\x7d\x7b\x7bv\x7d\x7d\x7b% endfor %\x7d"
          [("L", Value.vlist [a, b, c])] = some (pyStr a ++ pyStr b ++ pyStr c)) := by
  have hgen : ∀ items : List Value,
      compileRender "\x7b% for v in L %\x7d\x7b\x7bv\x7d\x7d\x7b% endfor %\x7d"
        [("L", Value.vlist items)] = some (printedConcat items) := by
    intro items
    show some (renderTemplate (Node.container [Node.forNode "v" "L" [Node.print "v"]])
        [("L", Value.vlist items)]) = some (printedConcat items)
    rw [renderTemplate_single]
    rw [renderNode_forPrint "v" "L" rfl items [[("L", Value.vlist items)]] rfl]
    simp [String.append_empty]
  refine ⟨hgen, rfl, rfl, fun v h => ?_, fun a b c ha hb hc => ?_⟩
  · show some (renderTemplate (Node.container [Node.forNode "v" "L" [Node.print "v"]])
        [("L", v)]) = some ""
    rw [renderTemplate_single]
    have hl : Context.lookup [[("L", v)]] "L" = v := rfl
    simp only [renderNode, hl, h]
    rfl
  · rw [hgen [a, b, c]]
    simp [printedConcat, printedOf_of_ne a ha, printedOf_of_ne b hb, printedOf_of_ne c hc,
      String.append_empty, String.append_assoc]

/-- C3 witness: the amended claim evaluated at `[1, "x"]` and at the
non-iterable value `7`. -/
theorem claim_C3_witness :
    compileRender "\x7b% for v in L %\x7d\x7b\x7bv\x7d\x7d\x7b% endfor %\x7d"
        [("L", Value.vlist [Value.vint 1, Value.vstr "x"])] = some "1x"
      ∧ compileRender "\x7b% for v in L %\x7d\x7b\x7bv\x7d\x7d\x7b% endfor %\x7d"
        [("L", Value.vint 7)] = some "" := by
  constructor
  · exact claim_C3_amended.1 [Value.vint 1, Value.vstr "x"]
  · exact claim_C3_amended.2.2.2.1 (Value.vint 7) rfl

/-- C4: rendering a loop node returns exactly the context stack it was
given (the single pushed layer is popped when iteration finishes), and the
same holds for every node, so loop-variable bindings do not leak to
siblings after the `endfor`.  During the loop body the variable is bound in
the topmost layer (third conjunct), and binding it leaves the resolution of
every other name unchanged across iterations (fourth conjunct). -/
theorem claim_C4_loop_scope_discipline :
    (∀ (var path : String) (cs : List Node) (st : Ctx),
        (renderNode (Node.forNode var path cs) st).2 = st)
  ∧ (∀ (n : Node) (st : Ctx), (renderNode n st).2 = st)
  ∧ (∀ (l : Layer) (rest : Ctx) (var : String) (item : Value),
        Context.getItem (Context.setItem (l :: rest) var item) var = some item)
  ∧ (∀ (st : Ctx) (var k : String) (item : Value), k ≠ var →
        Context.getItem (Context.setItem st var item) k = Context.getItem st k) := by
  refine ⟨fun var path cs st => renderNode_state _ _, fun n st => renderNode_state _ _,
    fun l rest var item => ?_, fun st var k item h => getItem_setItem_other st var k item h⟩
  simp [Context.setItem, Context.getItem, getKey_setKey_same]

/-- C4 witness: the scope discipline evaluated on a concrete loop node and
a concrete unrelated-name resolution. -/
theorem claim_C4_witness :
    (renderNode (Node.forNode "v" "L" [Node.print "v"])
        [[("L", Value.vstr "ab"), ("k", Value.vint 3)]]).2
      = [[("L", Value.vstr "ab"), ("k", Value.vint 3)]]
  ∧ Context.getItem (Context.setItem [[("k", Value.vint 3)]] "v" (Value.vint 9)) "k"
      = Context.getItem [[("k", Value.vint 3)]] "k" := by
  constructor
  · exact claim_C4_loop_scope_discipline.1 "v" "L" [Node.print "v"] _
  · exact claim_C4_loop_scope_discipline.2.2.2 _ "v" "k" _ (by decide)


/-- C5 counterexample: `compile` succeeds on the template consisting of a
single top-level `(else)` instruction, and the finalized tree it returns
contains an `ElseNode`: `else` markers are only consumed by
`IfNode.process_children`, which never runs for the root (or for `for`
bodies), so the claim that no `ElseMarker` survives anywhere in a finalized
tree is false. -/
theorem claim_C5_counterexample :
    Except.map hasElseNode (compile "\x7b% else %\x7d") = Except.ok true := rfl

/-- C5 amended: in every tree returned by a successful `compile`, every
`IfNode` carries exactly two branches (by construction of the node shape)
and those branches are precisely the `process_children` partition of its
raw child list: children before the first `ElseNode` in the true branch,
non-marker children after it in the false branch, all `ElseNode` markers
dropped from the branches — recursively at every depth.  (`ElseNode`s can,
however, survive as direct children of the root or of a `for` body, where
they render as the empty string, and each `IfNode` also retains its raw
child list, markers included, as the Python object does.) -/
theorem claim_C5_amended (s : String) (root : Node) (h : compile s = Except.ok root) :
    goodIf root := by
  unfold compile at h
  cases ht : tokenize s with
  | error e => rw [ht] at h; exact absurd h (by simp)
  | ok toks =>
      rw [ht] at h
      dsimp only at h
      unfold parseToks at h
      cases hp : parseTokens toks { rootChildren := [], opens := [] } with
      | error e => rw [hp] at h; exact absurd h (by simp)
      | ok st =>
          rw [hp] at h
          dsimp only at h
          have hinit : PStateWf { rootChildren := [], opens := [] } :=
            ⟨trivial, by intro b hb; simp at hb⟩
          have hw := parseTokens_wf toks _ st hinit hp
          cases hop : st.opens with
          | cons b bs => rw [hop] at h; exact absurd h (by simp)
          | nil =>
              rw [hop] at h
              injection h with h
              subst h
              simpa [goodIf] using hw.1

/-- C5 witness: the amended claim applied to a compiled if/else template,
with the finalized tree spelled out (note the retained `ElseNode` in the
raw child list and the marker-free branches). -/
theorem claim_C5_witness :
    compile "\x7b% if a %\x7dx\x7b% else %\x7dy\x7b% endif %\x7d" =
      Except.ok (Node.container [Node.ifNode "a"
        [Node.text "x", Node.elseNode, Node.text "y"] [Node.text "x"] [Node.text "y"]])
  ∧ goodIf (Node.container [Node.ifNode "a"
        [Node.text "x", Node.elseNode, Node.text "y"] [Node.text "x"] [Node.text "y"]]) :=
  ⟨rfl, claim_C5_amended "\x7b% if a %\x7dx\x7b% else %\x7dy\x7b% endif %\x7d" _ rfl⟩


/-- C6 counterexample: the template whose if-instruction argument is the
single dot `.` compiles successfully, yet `.` is not a dotted path of one
or more identifier segments (its segments are two empty strings): the
regex class `[\w.]+` accepts dot runs, leading dots, and digit-initial
segments that no identifier grammar accepts. -/
theorem claim_C6_counterexample :
    compile "\x7b% if . %\x7dx\x7b% endif %\x7d" =
      Except.ok (Node.container [Node.ifNode "." [Node.text "x"] [Node.text "x"] []])
  ∧ specDottedPath "." = false :=
  ⟨rfl, rfl⟩

/-- C6 amended: an `if` instruction is accepted exactly when its text is
`if`, at least one whitespace character, and a nonempty run of word-or-dot
characters reaching the end — the language of `^if\s+([\w.]+)$`, which is
strictly larger than the dotted identifier paths the claim describes — and
rejected with the malformed-tag error otherwise; a `for` instruction is
accepted exactly when its text is `for`, whitespace, a nonempty word run,
whitespace, `in`, whitespace, and a nonempty word-or-dot run, and rejected
with the malformed-tag error otherwise. -/
theorem claim_C6_amended :
    (∀ t : String, (∃ arg, matchIf t = some arg) ↔ ifShape t)
  ∧ (∀ (t : String) (st : PState) (arg : String),
        keywordOf t = some "if" → matchIf t = some arg →
        parseStep st (Token.instruction t) =
          Except.ok { st with opens := OpenBlock.ifB arg [] :: st.opens })
  ∧ (∀ (t : String) (st : PState), keywordOf t = some "if" → matchIf t = none →
        parseStep st (Token.instruction t) = Except.error TemplateError.malformedIf)
  ∧ (∀ t : String, (∃ p, matchFor t = some p) ↔ forShape t)
  ∧ (∀ (t : String) (st : PState) (v arg : String),
        keywordOf t = some "for" → matchFor t = some (v, arg) →
        parseStep st (Token.instruction t) =
          Except.ok { st with opens := OpenBlock.forB v arg [] :: st.opens })
  ∧ (∀ (t : String) (st : PState), keywordOf t = some "for" → matchFor t = none →
        parseStep st (Token.instruction t) = Except.error TemplateError.malformedFor) :=
  ⟨matchIf_some_iff, parseStep_if_ok, parseStep_if_err,
   matchFor_some_iff, parseStep_for_ok, parseStep_for_err⟩

/-- C6 witness: the amended claim evaluated on the well-formed text
`if x.y`, the malformed text `for !`, and the resulting parser
transitions. -/
theorem claim_C6_witness :
    ifShape "if x.y"
  ∧ parseStep { rootChildren := [], opens := [] } (Token.instruction "for !")
      = Except.error TemplateError.malformedFor
  ∧ parseStep { rootChildren := [], opens := [] } (Token.instruction "if x.y")
      = Except.ok { rootChildren := [], opens := [OpenBlock.ifB "x.y" []] } := by
  refine ⟨?_, ?_, ?_⟩
  · exact (claim_C6_amended.1 "if x.y").1 ⟨"x.y", rfl⟩
  · exact claim_C6_amended.2.2.2.2.2 "for !" _ rfl rfl
  · exact claim_C6_amended.2.1 "if x.y" { rootChildren := [], opens := [] } "x.y" rfl rfl


/-- C7 counterexample: the instruction tag with empty (whitespace-only)
text compiles to an instruction token whose `keyword` property
(`text.split()[0]`) raises an uncaught `IndexError` — a different failure,
and in Python not a `TemplateError` at all, where the claim demands the
unknown-instruction error. -/
theorem claim_C7_counterexample :
    compile "\x7b% %\x7d" = Except.error TemplateError.indexError
  ∧ TemplateError.indexError ≠ TemplateError.illegalInstruction "" :=
  ⟨rfl, by decide⟩

/-- C7 amended: an instruction token whose text has a first
whitespace-separated word outside the recognized set fails with the
unknown-instruction error naming that word; but when the trimmed
instruction text is empty there is no first word, and parsing instead
fails with the `IndexError` raised by `Token.keyword` (not a
`TemplateError`). -/
theorem claim_C7_amended :
    (∀ (t kw : String) (st : PState), keywordOf t = some kw →
        kw ≠ "if" → kw ≠ "else" → kw ≠ "for" → kw ≠ "endif" → kw ≠ "endfor" →
        parseStep st (Token.instruction t)
          = Except.error (TemplateError.illegalInstruction kw))
  ∧ (∀ (t : String) (st : PState), keywordOf t = none →
        parseStep st (Token.instruction t) = Except.error TemplateError.indexError) := by
  constructor
  · intro t kw st hk h1 h2 h3 h4 h5
    simp only [parseStep, hk]
    simp [h1, h2, h3, h4, h5]
  · intro t st hk
    simp only [parseStep, hk]

/-- C7 witness: the amended claim evaluated on the unrecognized keyword
`frobnicate` and on a whitespace-only instruction text. -/
theorem claim_C7_witness :
    parseStep { rootChildren := [], opens := [] } (Token.instruction "frobnicate x")
      = Except.error (TemplateError.illegalInstruction "frobnicate")
  ∧ parseStep { rootChildren := [], opens := [] } (Token.instruction " ")
      = Except.error TemplateError.indexError := by
  constructor
  · exact claim_C7_amended.1 "frobnicate x" "frobnicate" _ rfl (by decide) (by decide)
      (by decide) (by decide) (by decide)
  · exact claim_C7_amended.2 " " _ rfl

/-- C8: the block-balancing discipline of `Parser.parse`: a closing
keyword with an empty expectation stack fails with the unexpected-close
error; one differing from the top expectation fails with the
mismatched-close error naming both; a matching one finalizes the top open
block, pops both stacks and appends the finalized node to the enclosing
container; an input exhausted with a nonempty expectation stack fails with
the unclosed-block error naming the innermost outstanding keyword; and the
three templates named by the claim produce exactly these three errors. -/
theorem claim_C8_block_balancing :
    (∀ (t kw : String) (st : PState), keywordOf t = some kw →
        (kw = "endif" ∨ kw = "endfor") → st.expecting = [] →
        parseStep st (Token.instruction t)
          = Except.error (TemplateError.unexpectedClose kw))
  ∧ (∀ (t kw e : String) (es : List String) (st : PState), keywordOf t = some kw →
        (kw = "endif" ∨ kw = "endfor") → st.expecting = e :: es → e ≠ kw →
        parseStep st (Token.instruction t)
          = Except.error (TemplateError.mismatchedClose e kw))
  ∧ (∀ (t kw : String) (st : PState) (b : OpenBlock) (bs : List OpenBlock),
        keywordOf t = some kw → st.opens = b :: bs → b.endword = kw →
        parseStep st (Token.instruction t) =
          Except.ok (PState.addChild { st with opens := bs } b.finalize))
  ∧ (∀ (toks : List Token) (st : PState) (b : OpenBlock) (bs : List OpenBlock),
        parseTokens toks { rootChildren := [], opens := [] } = Except.ok st →
        st.opens = b :: bs →
        parseToks toks = Except.error (TemplateError.unclosedBlock b.endword))
  ∧ compile "\x7b% if a %\x7d" = Except.error (TemplateError.unclosedBlock "endif")
  ∧ compile "\x7b% endif %\x7d" = Except.error (TemplateError.unexpectedClose "endif")
  ∧ compile "\x7b% if a %\x7dx\x7b% endfor %\x7d"
      = Except.error (TemplateError.mismatchedClose "endif" "endfor") := by
  refine ⟨?_, ?_, ?_, ?_, rfl, rfl, rfl⟩
  · intro t kw st hk hkw hexp
    have hop : st.opens = [] := by
      have := hexp
      simp only [PState.expecting] at this
      exact List.map_eq_nil_iff.1 this
    rcases hkw with rfl | rfl <;> simp [parseStep, hk, hop]
  · intro t kw e es st hk hkw hexp hne
    simp only [PState.expecting] at hexp
    cases hop : st.opens with
    | nil => rw [hop] at hexp; simp at hexp
    | cons b bs =>
        rw [hop] at hexp
        simp only [List.map_cons] at hexp
        injection hexp with he htail
        subst he
        rcases hkw with rfl | rfl <;> simp [parseStep, hk, hop, hne]
  · intro t kw st b bs hk hop hend
    have hkw : kw = "endif" ∨ kw = "endfor" := by
      cases b with
      | ifB p cs => exact Or.inl hend.symm
      | forB v p cs => exact Or.inr hend.symm
    rcases hkw with rfl | rfl <;> simp [parseStep, hk, hop, hend]
  · intro toks st b bs hp hop
    unfold parseToks
    rw [hp]
    dsimp only
    rw [hop]

/-- C8 witness: the balancing discipline evaluated on an `endif` arriving
with no open block, inside an open `for` block, and inside an open `if`
block. -/
theorem claim_C8_witness :
    parseStep { rootChildren := [], opens := [] } (Token.instruction "endif")
      = Except.error (TemplateError.unexpectedClose "endif")
  ∧ parseStep { rootChildren := [], opens := [OpenBlock.forB "v" "L" []] }
      (Token.instruction "endif")
      = Except.error (TemplateError.mismatchedClose "endfor" "endif")
  ∧ parseStep { rootChildren := [], opens := [OpenBlock.ifB "a" []] }
      (Token.instruction "endif")
      = Except.ok { rootChildren := [Node.ifNode "a" [] [] []], opens := [] } := by
  refine ⟨?_, ?_, ?_⟩
  · exact claim_C8_block_balancing.1 "endif" "endif" _ rfl (Or.inl rfl) rfl
  · exact claim_C8_block_balancing.2.1 "endif" "endif" "endfor" [] _ rfl (Or.inl rfl) rfl (by decide)
  · exact claim_C8_block_balancing.2.2.1 "endif" "endif" _ (OpenBlock.ifB "a" []) [] rfl rfl rfl


/-! Lemmas for the literal-text roundtrip (C9) and string iteration (C10). -/

theorem mk_toList (s : String) : String.mk s.toList = s := by
  cases s
  rfl

theorem readTextBody_all (l : List Char) (h : hasTagOpen l = false) :
    readTextBody l = (l, []) := by
  induction l with
  | nil => rfl
  | cons c rest ih =>
      simp only [hasTagOpen, Bool.or_eq_false_iff] at h
      simp [readTextBody, h.1, ih h.2]

theorem tokenizeAux_noTag (fuel : Nat) (c : Char) (cs : List Char)
    (h : hasTagOpen (c :: cs) = false) :
    tokenizeAux (Nat.succ fuel) (c :: cs) = Except.ok [Token.text (String.mk (c :: cs))] := by
  rw [tokenizeAux.eq_def]
  split
  · rename_i heq
    exact absurd heq (by simp)
  · rename_i hfuel heq
    exact absurd hfuel (by simp)
  · rename_i rest heq
    injection heq with h1 h2
    subst h1
    subst h2
    simp [hasTagOpen, isTagOpen] at h
  · rename_i rest heq
    injection heq with h1 h2
    subst h1
    subst h2
    simp [hasTagOpen, isTagOpen] at h
  · rename_i rest heq
    injection heq with h1 h2
    subst h1
    subst h2
    simp [hasTagOpen, isTagOpen] at h
  · rename_i hfuel heq
    injection heq with h1 h2
    subst h1
    subst h2
    rw [readTextBody_all (c :: cs) h]
    simp [tokenizeAux]

theorem printedConcat_chars (cs : List Char) :
    printedConcat (cs.map (fun c => Value.vstr (String.mk [c]))) = String.mk cs := by
  induction cs with
  | nil => rfl
  | cons c rest ih =>
      show String.mk [c] ++ printedConcat (rest.map (fun c => Value.vstr (String.mk [c])))
        = String.mk (c :: rest)
      rw [ih]
      rfl

/-- C9: a template string in which none of the three tag openers `{#`,
`{{`, `{%` occurs anywhere compiles to a single text node (or to an empty
root for the empty string), and rendering it against any data mapping
returns the string itself, newlines and whitespace included:
render-after-compile is the identity on delimiter-free strings. -/
theorem claim_C9_identity_on_plain_text (s : String) (data : Layer) (h : hasTagOpen s.toList = false) :
    compileRender s data = some s := by
  cases hl : s.toList with
  | nil =>
      have hs : s = "" := by
        have := mk_toList s
        rw [hl] at this
        exact this.symm
      subst hs
      rfl
  | cons c cs =>
      unfold compileRender compile tokenize
      rw [hl, List.length_cons]
      rw [tokenizeAux_noTag cs.length c cs (hl ▸ h)]
      show some (renderTemplate (Node.container [Node.text (String.mk (c :: cs))]) data) = some s
      rw [renderTemplate_single]
      show some (String.mk (c :: cs) ++ "") = some s
      rw [String.append_empty, ← hl, mk_toList]

/-- C9 witness: the identity evaluated on a delimiter-free string with a
newline against a nonempty data mapping. -/
theorem claim_C9_witness :
    hasTagOpen ("hello, \nworld" : String).toList = false
  ∧ compileRender "hello, \nworld" [("a", Value.vint 1)] = some "hello, \nworld" :=
  ⟨by decide, claim_C9_identity_on_plain_text "hello, \nworld" [("a", Value.vint 1)] (by decide)⟩

/-- C10: strings possess the iteration capability that `ForNode.render`
tests for with `hasattr`, so looping a print-the-variable body over a
bound string renders the body once per character — the loop variable bound
to a one-character string — and the whole render returns the original
string, rather than the empty string a non-iterable value would produce. -/
theorem claim_C10_string_iteration (s : String) (h : s ≠ "") :
    compileRender "\x7b% for v in L %\x7d\x7b\x7bv\x7d\x7d\x7b% endfor %\x7d"
      [("L", Value.vstr s)] = some s := by
  show some (renderTemplate (Node.container [Node.forNode "v" "L" [Node.print "v"]])
      [("L", Value.vstr s)]) = some s
  rw [renderTemplate_single]
  rw [renderNode_forPrint "v" "L" rfl (s.toList.map (fun c => Value.vstr (String.mk [c])))
    [[("L", Value.vstr s)]] rfl]
  show some (printedConcat (s.toList.map (fun c => Value.vstr (String.mk [c]))) ++ "") = some s
  rw [printedConcat_chars, String.append_empty, mk_toList]

/-- C10 witness: string iteration evaluated on the string `abc`. -/
theorem claim_C10_witness :
    ("abc" : String) ≠ ""
  ∧ compileRender "\x7b% for v in L %\x7d\x7b\x7bv\x7d\x7d\x7b% endfor %\x7d"
      [("L", Value.vstr "abc")] = some "abc" :=
  ⟨by decide, claim_C10_string_iteration "abc" (by decide)⟩

end Djindjo
